import Mathlib

/-!
Shallow embedding of the Linear Regression Price-Channel Engine
(`lib/regression.ts` core: `calculateLinearRegression`,
`calculateStandardDeviation`, `calculateChannelBands`, `generateSignal`,
`calculateRegressionChannel`, `formatRegressionEquation`).

Numbers are modelled by an arbitrary linear ordered field `K` (instantiated
at `ℚ` for executable checks and at `ℝ` where `Math.sqrt` forces real
arithmetic).  Division is Lean's total division (`x / 0 = 0`); places where
the source can divide by zero are noted per claim.  Functions that `throw`
are modelled in `Except String` with the source's error messages.
-/

/-- The closed union type of trading signals (`'BUY' | 'SELL' | 'HOLD'`). -/
inductive Signal where
  | BUY : Signal
  | SELL : Signal
  | HOLD : Signal
deriving DecidableEq, Repr

/-- Mirror of the `RegressionResult` interface. -/
structure RegressionResult (K : Type) where
  slope : K
  intercept : K
  rSquared : K
  predictions : List K
deriving DecidableEq, Repr

/-- Mirror of the `{ upperBand, lowerBand }` record returned by
`calculateChannelBands`. -/
structure ChannelBands (K : Type) where
  upperBand : List K
  lowerBand : List K
deriving DecidableEq, Repr

/-- Mirror of the `RegressionChannelResult` interface. -/
structure RegressionChannelResult (K : Type) where
  regression : RegressionResult K
  upperBand : List K
  lowerBand : List K
  middleLine : List K
  standardDeviation : K
  currentPrice : K
  predictedPrice : K
  signal : Signal
  signalStrength : K
  distanceFromUpper : K
  distanceFromLower : K
  channelWidth : K
deriving DecidableEq, Repr

/-- Embedding of `calculateLinearRegression` (least squares fit).
The accumulation loops become list sums; the `throw` becomes
`Except.error` with the source's message. -/
def calculateLinearRegression {K : Type} [LinearOrderedField K]
    (xValues yValues : List K) : Except String (RegressionResult K) :=
  let n := xValues.length
  if n = 0 ∨ n ≠ yValues.length then
    Except.error "Invalid input: arrays must have same non-zero length"
  else
    let sumX := xValues.sum
    let sumY := yValues.sum
    let sumXY := (List.zipWith (fun a b => a * b) xValues yValues).sum
    let sumX2 := (xValues.map (fun a => a * a)).sum
    let slope := ((n : K) * sumXY - sumX * sumY) / ((n : K) * sumX2 - sumX * sumX)
    let intercept := (sumY - slope * sumX) / (n : K)
    let predictions := xValues.map (fun x => slope * x + intercept)
    let meanY := sumY / (n : K)
    let ssTotal := (yValues.map (fun y => (y - meanY) ^ 2)).sum
    let ssResidual := (List.zipWith (fun y p => (y - p) ^ 2) yValues predictions).sum
    let rSquared := if ssTotal = 0 then 0 else 1 - ssResidual / ssTotal
    Except.ok ⟨slope, intercept, rSquared, predictions⟩

/-- Embedding of `calculateStandardDeviation` (population standard deviation
of the residuals).  `Math.sqrt` is `Real.sqrt`, so this function is fixed at
`ℝ`. -/
noncomputable def calculateStandardDeviation
    (actualValues predictedValues : List ℝ) : Except String ℝ :=
  let n := actualValues.length
  if n = 0 ∨ n ≠ predictedValues.length then
    Except.error "Invalid input: arrays must have same non-zero length"
  else
    let sumSquaredDifferences :=
      (List.zipWith (fun a p => (a - p) * (a - p)) actualValues predictedValues).sum
    let variance := sumSquaredDifferences / (n : ℝ)
    Except.ok (Real.sqrt variance)

/-- Embedding of `calculateChannelBands`.  The source gives `multiplier`
the default value 2; callers here always pass it explicitly. -/
def calculateChannelBands {K : Type} [LinearOrderedField K]
    (predictions : List K) (standardDeviation : K) (multiplier : K) :
    ChannelBands K :=
  { upperBand := predictions.map (fun pred => pred + multiplier * standardDeviation)
    lowerBand := predictions.map (fun pred => pred - multiplier * standardDeviation) }

/-- Embedding of `generateSignal`. -/
def generateSignal {K : Type} [LinearOrderedField K]
    (currentPrice predictedPrice upperBandValue lowerBandValue : K) :
    Signal × K :=
  let channelWidth := upperBandValue - lowerBandValue
  let distanceFromMiddle := currentPrice - predictedPrice
  let normalizedPosition := distanceFromMiddle / (channelWidth / 2)
  let strength := min 100 (|normalizedPosition| * 100)
  if normalizedPosition ≤ -(7 / 10 : K) then
    (Signal.BUY, min 100 strength)
  else if normalizedPosition ≥ (7 / 10 : K) then
    (Signal.SELL, min 100 strength)
  else
    (Signal.HOLD, 100 - strength)

/-- Embedding of `calculateRegressionChannel` (the orchestrator).
Exceptions of the inner stages propagate through `Except.bind`.  The source
gives `stdDevMultiplier` the default value 2; callers here always pass it
explicitly. -/
noncomputable def calculateRegressionChannel
    (prices : List ℝ) (stdDevMultiplier : ℝ) :
    Except String (RegressionChannelResult ℝ) :=
  if prices.length < 2 then
    Except.error "Need at least 2 price points for regression analysis"
  else
    let xValues : List ℝ := (List.range prices.length).map (fun (i : ℕ) => (i : ℝ))
    (calculateLinearRegression xValues prices).bind fun regression =>
      (calculateStandardDeviation prices regression.predictions).bind fun standardDeviation =>
        let bands := calculateChannelBands regression.predictions standardDeviation stdDevMultiplier
        let lastIndex := prices.length - 1
        let currentPrice := prices.getD lastIndex 0
        let predictedPrice := regression.predictions.getD lastIndex 0
        let currentUpperBand := bands.upperBand.getD lastIndex 0
        let currentLowerBand := bands.lowerBand.getD lastIndex 0
        let s := generateSignal currentPrice predictedPrice currentUpperBand currentLowerBand
        let channelWidth := currentUpperBand - currentLowerBand
        let distanceFromUpper := (currentUpperBand - currentPrice) / channelWidth * 100
        let distanceFromLower := (currentPrice - currentLowerBand) / channelWidth * 100
        Except.ok
          { regression := regression
            upperBand := bands.upperBand
            lowerBand := bands.lowerBand
            middleLine := regression.predictions
            standardDeviation := standardDeviation
            currentPrice := currentPrice
            predictedPrice := predictedPrice
            signal := s.1
            signalStrength := s.2
            distanceFromUpper := distanceFromUpper
            distanceFromLower := distanceFromLower
            channelWidth := channelWidth }

/-- Model of JavaScript `Number.prototype.toFixed` on idealized (rational)
numbers: a leading "-" for negative inputs, then the absolute value rounded
to `digits` fractional digits (round half toward the larger integer, per the
ECMAScript algorithm applied to the absolute value). -/
def jsToFixed (digits : ℕ) (q : ℚ) : String :=
  let m : ℕ := (Int.floor (|q| * (10 : ℚ) ^ digits + 1 / 2)).toNat
  let ip := m / 10 ^ digits
  let fp := m % 10 ^ digits
  let fs := toString fp
  let core :=
    if digits = 0 then toString m
    else toString ip ++ "." ++ (String.mk (List.replicate (digits - fs.length) '0') ++ fs)
  if q < 0 then "-" ++ core else core

/-- Embedding of `formatRegressionEquation`.  Note the template literal
places a space between the intercept's sign prefix and the intercept's
digits, and negative values get an empty added prefix (their minus sign
comes from the number rendering itself). -/
def formatRegressionEquation (slope intercept : ℚ) : String :=
  let slopeSign := if 0 ≤ slope then "+" else ""
  let interceptSign := if 0 ≤ intercept then "+" else ""
  "y = " ++ slopeSign ++ jsToFixed 4 slope ++ "x " ++ interceptSign ++ " " ++ jsToFixed 2 intercept

/-- The format asserted by the specification, written from its words: each
coefficient immediately preceded by an explicit '+' or '-' sign prefix, the
slope to four decimals and the intercept to two. -/
def formatRegressionEquationClaimed (slope intercept : ℚ) : String :=
  "y = " ++ (if 0 ≤ slope then "+" else "-") ++ jsToFixed 4 |slope| ++ "x " ++
    (if 0 ≤ intercept then "+" else "-") ++ jsToFixed 2 |intercept|

/-- The amended format: nonnegative coefficients get an explicit '+' prefix
(negative ones carry their own minus sign from the number rendering), and a
space separates the intercept's sign prefix from its digits. -/
def formatRegressionEquationAmended (slope intercept : ℚ) : String :=
  "y = " ++ (if 0 ≤ slope then "+" else "") ++ jsToFixed 4 slope ++ "x " ++
    (if 0 ≤ intercept then "+" else "") ++ " " ++ jsToFixed 2 intercept

/-- Reassociation of the double `min` in the BUY/SELL branches of
`generateSignal`: clamping an already clamped strength is the identity. -/
lemma min_hundred_min {K : Type} [LinearOrderedField K] (x : K) :
    min 100 (min 100 x) = min 100 x := by
  rw [← min_assoc, min_self]

/-- C1: for every call `generateSignal currentPrice predictedPrice
upperBandValue lowerBandValue` with positive channel width, the returned
signal is BUY iff the normalized position is ≤ −0.7, SELL iff it is ≥ 0.7,
HOLD otherwise; the returned strength is `min 100 (|normalizedPosition|·100)`
for BUY/SELL and `100 − min 100 (|normalizedPosition|·100)` for HOLD. -/
theorem generateSignal_spec {K : Type} [LinearOrderedField K]
    (currentPrice predictedPrice upperBandValue lowerBandValue : K)
    (hw : 0 < upperBandValue - lowerBandValue) :
    ((generateSignal currentPrice predictedPrice upperBandValue lowerBandValue).1 = Signal.BUY ↔
      (currentPrice - predictedPrice) / ((upperBandValue - lowerBandValue) / 2) ≤ -(7 / 10 : K)) ∧
    ((generateSignal currentPrice predictedPrice upperBandValue lowerBandValue).1 = Signal.SELL ↔
      (7 / 10 : K) ≤ (currentPrice - predictedPrice) / ((upperBandValue - lowerBandValue) / 2)) ∧
    ((generateSignal currentPrice predictedPrice upperBandValue lowerBandValue).1 = Signal.HOLD ↔
      (-(7 / 10 : K) < (currentPrice - predictedPrice) / ((upperBandValue - lowerBandValue) / 2) ∧
        (currentPrice - predictedPrice) / ((upperBandValue - lowerBandValue) / 2) < (7 / 10 : K))) ∧
    ((generateSignal currentPrice predictedPrice upperBandValue lowerBandValue).1 = Signal.BUY ∨
      (generateSignal currentPrice predictedPrice upperBandValue lowerBandValue).1 = Signal.SELL →
      (generateSignal currentPrice predictedPrice upperBandValue lowerBandValue).2 =
        min 100 (|(currentPrice - predictedPrice) / ((upperBandValue - lowerBandValue) / 2)| * 100)) ∧
    ((generateSignal currentPrice predictedPrice upperBandValue lowerBandValue).1 = Signal.HOLD →
      (generateSignal currentPrice predictedPrice upperBandValue lowerBandValue).2 =
        100 - min 100 (|(currentPrice - predictedPrice) / ((upperBandValue - lowerBandValue) / 2)| * 100)) := by
  simp only [generateSignal]
  split_ifs with h1 h2
  · refine ⟨by simpa using h1, ?_, ?_, fun _ => min_hundred_min _, ?_⟩
    · constructor
      · intro h; cases h
      · intro h; exfalso; linarith
    · constructor
      · intro h; cases h
      · rintro ⟨h, -⟩; exfalso; linarith
    · intro h; cases h
  · refine ⟨?_, by simpa using h2, ?_, fun _ => min_hundred_min _, ?_⟩
    · constructor
      · intro h; cases h
      · intro h; exfalso; linarith
    · constructor
      · intro h; cases h
      · rintro ⟨-, h⟩; exfalso; linarith
    · intro h; cases h
  · push_neg at h1 h2
    refine ⟨?_, ?_, ?_, ?_, fun _ => rfl⟩
    · constructor
      · intro h; cases h
      · intro h; exfalso; linarith
    · constructor
      · intro h; cases h
      · intro h; exfalso; linarith
    · exact ⟨fun _ => ⟨h1, h2⟩, fun _ => rfl⟩
    · rintro (h | h) <;> cases h

/-- Witness for C1: the theorem applied at the concrete call
`generateSignal 1 0 2 (-2)` (channel width 4, normalized position 1/2). -/
theorem generateSignal_spec_witness :
    (generateSignal (1 : ℚ) 0 2 (-2)).1 = Signal.HOLD ∧
      (generateSignal (1 : ℚ) 0 2 (-2)).2 = 50 := by
  have h := generateSignal_spec (1 : ℚ) 0 2 (-2) (by norm_num)
  have hhold : (generateSignal (1 : ℚ) 0 2 (-2)).1 = Signal.HOLD :=
    h.2.2.1.mpr (by norm_num)
  refine ⟨hhold, ?_⟩
  rw [h.2.2.2.2 hhold]
  norm_num [min_def, abs_of_nonneg]

/-- C10: with positive channel width, a BUY or SELL signal comes with a
strength in [70, 100] and a HOLD signal with a strength in (30, 100]. -/
theorem generateSignal_strength_range {K : Type} [LinearOrderedField K]
    (currentPrice predictedPrice upperBandValue lowerBandValue : K)
    (hw : 0 < upperBandValue - lowerBandValue) :
    ((generateSignal currentPrice predictedPrice upperBandValue lowerBandValue).1 = Signal.BUY ∨
      (generateSignal currentPrice predictedPrice upperBandValue lowerBandValue).1 = Signal.SELL →
      70 ≤ (generateSignal currentPrice predictedPrice upperBandValue lowerBandValue).2 ∧
        (generateSignal currentPrice predictedPrice upperBandValue lowerBandValue).2 ≤ 100) ∧
    ((generateSignal currentPrice predictedPrice upperBandValue lowerBandValue).1 = Signal.HOLD →
      30 < (generateSignal currentPrice predictedPrice upperBandValue lowerBandValue).2 ∧
        (generateSignal currentPrice predictedPrice upperBandValue lowerBandValue).2 ≤ 100) := by
  simp only [generateSignal]
  set np := (currentPrice - predictedPrice) / ((upperBandValue - lowerBandValue) / 2) with hnp
  split_ifs with h1 h2
  · refine ⟨fun _ => ⟨?_, min_le_left _ _⟩, fun h => by cases h⟩
    rw [min_hundred_min]
    have habs : (7 / 10 : K) ≤ |np| := by
      rw [abs_of_nonpos (by linarith)]
      linarith
    have : (70 : K) ≤ |np| * 100 := by nlinarith
    exact le_min (by norm_num) this
  · refine ⟨fun _ => ⟨?_, min_le_left _ _⟩, fun h => by cases h⟩
    rw [min_hundred_min]
    have habs : (7 / 10 : K) ≤ |np| := le_trans h2 (le_abs_self np)
    have : (70 : K) ≤ |np| * 100 := by nlinarith
    exact le_min (by norm_num) this
  · push_neg at h1 h2
    constructor
    · rintro (h | h) <;> cases h
    intro _
    have habs : |np| < 7 / 10 := abs_lt.mpr ⟨h1, h2⟩
    have h0 : (0 : K) ≤ |np| * 100 := by positivity
    have h70 : |np| * 100 < 70 := by nlinarith
    rw [min_eq_right (by linarith)]
    constructor
    · show (30 : K) < 100 - |np| * 100
      linarith
    · show 100 - |np| * 100 ≤ (100 : K)
      linarith

/-- Witness for C10: the theorem applied at `generateSignal (-1) 0 1 (-1)`
(channel width 2, normalized position −1, a BUY). -/
theorem generateSignal_strength_range_witness :
    (generateSignal (-1 : ℚ) 0 1 (-1)).1 = Signal.BUY ∧
      70 ≤ (generateSignal (-1 : ℚ) 0 1 (-1)).2 ∧
      (generateSignal (-1 : ℚ) 0 1 (-1)).2 ≤ 100 := by
  have h := generateSignal_strength_range (-1 : ℚ) 0 1 (-1) (by norm_num)
  have hbuy : (generateSignal (-1 : ℚ) 0 1 (-1)).1 = Signal.BUY := by
    norm_num [generateSignal, min_def, abs_of_nonneg, abs_of_nonpos]
  exact ⟨hbuy, h.1 (Or.inl hbuy)⟩

/-- C6: `calculateChannelBands` produces bands whose pointwise difference is
the constant `2·multiplier·stdDev`, and the upper band dominates the lower
band whenever `stdDev ≥ 0` and `multiplier ≥ 0`. -/
theorem calculateChannelBands_spec {K : Type} [LinearOrderedField K]
    (predictions : List K) (standardDeviation multiplier : K) :
    (∀ i, i < predictions.length →
      (calculateChannelBands predictions standardDeviation multiplier).upperBand.getD i 0 -
        (calculateChannelBands predictions standardDeviation multiplier).lowerBand.getD i 0 =
          2 * multiplier * standardDeviation) ∧
    (0 ≤ standardDeviation → 0 ≤ multiplier → ∀ i, i < predictions.length →
      (calculateChannelBands predictions standardDeviation multiplier).lowerBand.getD i 0 ≤
        (calculateChannelBands predictions standardDeviation multiplier).upperBand.getD i 0) := by
  constructor
  · intro i hi
    rw [List.getD_eq_getElem _ _ (by simpa [calculateChannelBands] using hi),
      List.getD_eq_getElem _ _ (by simpa [calculateChannelBands] using hi)]
    simp only [calculateChannelBands, List.getElem_map]
    ring
  · intro hs hm i hi
    rw [List.getD_eq_getElem _ _ (by simpa [calculateChannelBands] using hi),
      List.getD_eq_getElem _ _ (by simpa [calculateChannelBands] using hi)]
    simp only [calculateChannelBands, List.getElem_map]
    have : 0 ≤ multiplier * standardDeviation := mul_nonneg hm hs
    linarith

/-- Witness for C6: the theorem applied at `calculateChannelBands [1, 2] 1 2`
at index 0 (width 4, upper 3, lower −1). -/
theorem calculateChannelBands_spec_witness :
    (calculateChannelBands [(1 : ℚ), 2] 1 2).upperBand.getD 0 0 -
        (calculateChannelBands [(1 : ℚ), 2] 1 2).lowerBand.getD 0 0 = 2 * 2 * 1 ∧
      (calculateChannelBands [(1 : ℚ), 2] 1 2).lowerBand.getD 0 0 ≤
        (calculateChannelBands [(1 : ℚ), 2] 1 2).upperBand.getD 0 0 := by
  have h := calculateChannelBands_spec [(1 : ℚ), 2] 1 2
  exact ⟨h.1 0 (by norm_num), h.2 (by norm_num) (by norm_num) 0 (by norm_num)⟩

/-- Sums of squared residuals are nonnegative. -/
lemma sum_zipWith_sq_nonneg (a p : List ℝ) :
    0 ≤ (List.zipWith (fun x y => (x - y) * (x - y)) a p).sum := by
  induction a generalizing p with
  | nil => simp
  | cons x t ih =>
      cases p with
      | nil => simp
      | cons y s =>
          simp only [List.zipWith_cons_cons, List.sum_cons]
          have := ih s
          nlinarith [sq_nonneg (x - y)]

/-- A sum of squared residuals vanishes exactly when the two equal-length
lists agree elementwise. -/
lemma sum_zipWith_sq_eq_zero_iff (a p : List ℝ) (hlen : a.length = p.length) :
    (List.zipWith (fun x y => (x - y) * (x - y)) a p).sum = 0 ↔ a = p := by
  induction a generalizing p with
  | nil =>
      cases p with
      | nil => simp
      | cons y s => simp at hlen
  | cons x t ih =>
      cases p with
      | nil => simp at hlen
      | cons y s =>
          simp only [List.zipWith_cons_cons, List.sum_cons]
          have hrest := sum_zipWith_sq_nonneg t s
          have hsq := sq_nonneg (x - y)
          constructor
          · intro h
            have h1 : (x - y) * (x - y) = 0 := by nlinarith
            have h2 : (List.zipWith (fun x y => (x - y) * (x - y)) t s).sum = 0 := by nlinarith
            have hx : x = y := by
              have := mul_self_eq_zero.mp h1
              linarith [sub_eq_zero.mp this]
            have ht : t = s := (ih s (by simpa using hlen)).mp h2
            rw [hx, ht]
          · intro h
            injection h with h1 h2
            subst h1
            rw [(ih s (by simpa using hlen)).mpr h2]
            simp

/-- C7: on equal-length non-empty inputs, `calculateStandardDeviation`
returns `sqrt(Σ(actual[i]−predicted[i])²/n)`, which is nonnegative and zero
exactly when the two lists agree elementwise. -/
theorem calculateStandardDeviation_spec (actualValues predictedValues : List ℝ)
    (hlen : actualValues.length = predictedValues.length)
    (hne : actualValues ≠ []) :
    calculateStandardDeviation actualValues predictedValues =
      Except.ok (Real.sqrt
        ((List.zipWith (fun a p => (a - p) ^ 2) actualValues predictedValues).sum /
          (actualValues.length : ℝ))) ∧
    0 ≤ Real.sqrt
        ((List.zipWith (fun a p => (a - p) ^ 2) actualValues predictedValues).sum /
          (actualValues.length : ℝ)) ∧
    (Real.sqrt
        ((List.zipWith (fun a p => (a - p) ^ 2) actualValues predictedValues).sum /
          (actualValues.length : ℝ)) = 0 ↔ actualValues = predictedValues) := by
  have hsq : (List.zipWith (fun a p => (a - p) ^ 2) actualValues predictedValues) =
      (List.zipWith (fun a p => (a - p) * (a - p)) actualValues predictedValues) := by
    simp only [pow_two]
  have hn : 0 < actualValues.length := List.length_pos.mpr hne
  have hn0 : (actualValues.length : ℝ) ≠ 0 := by positivity
  refine ⟨?_, Real.sqrt_nonneg _, ?_⟩
  · simp only [calculateStandardDeviation, hsq]
    rw [if_neg]
    push_neg
    exact ⟨by omega, hlen⟩
  · rw [hsq, Real.sqrt_eq_zero']
    have hS := sum_zipWith_sq_nonneg actualValues predictedValues
    constructor
    · intro h
      have hle : (List.zipWith (fun x y => (x - y) * (x - y)) actualValues
          predictedValues).sum ≤ 0 := by
        by_contra hc
        push_neg at hc
        have : 0 < (List.zipWith (fun x y => (x - y) * (x - y)) actualValues
            predictedValues).sum / (actualValues.length : ℝ) := by positivity
        linarith
      exact (sum_zipWith_sq_eq_zero_iff _ _ hlen).mp (le_antisymm hle hS)
    · intro h
      rw [(sum_zipWith_sq_eq_zero_iff _ _ hlen).mpr h]
      simp

/-- Witness for C7: the theorem applied at actual = predicted = [1, 2],
where the standard deviation evaluates to 0. -/
theorem calculateStandardDeviation_spec_witness :
    calculateStandardDeviation [(1 : ℝ), 2] [1, 2] = Except.ok 0 := by
  have h := calculateStandardDeviation_spec [(1 : ℝ), 2] [1, 2] rfl (by simp)
  rw [h.1]
  norm_num

/-- Successful shape of `calculateLinearRegression` on well-formed input:
it returns `ok` and the predictions list has the length of the x list. -/
lemma calculateLinearRegression_ok {K : Type} [LinearOrderedField K]
    (x y : List K) (h1 : x.length = y.length) (h2 : x ≠ []) :
    ∃ r : RegressionResult K, calculateLinearRegression x y = Except.ok r ∧
      r.predictions.length = x.length := by
  simp only [calculateLinearRegression]
  rw [if_neg]
  · exact ⟨_, rfl, by simp⟩
  · push_neg
    exact ⟨by simpa using List.length_pos.mpr h2 |>.ne', h1⟩

/-- Successful shape of `calculateStandardDeviation` on well-formed input. -/
lemma calculateStandardDeviation_ok (a p : List ℝ)
    (h1 : a.length = p.length) (h2 : a ≠ []) :
    ∃ v : ℝ, calculateStandardDeviation a p = Except.ok v := by
  simp only [calculateStandardDeviation]
  rw [if_neg]
  · exact ⟨_, rfl⟩
  · push_neg
    exact ⟨by simpa using List.length_pos.mpr h2 |>.ne', h1⟩

/-- On a price list with at least two points, the orchestrator succeeds:
both inner stages receive equal-length non-empty lists. -/
lemma calculateRegressionChannel_ok (prices : List ℝ) (stdDevMultiplier : ℝ)
    (hp : 2 ≤ prices.length) :
    ∃ r, calculateRegressionChannel prices stdDevMultiplier = Except.ok r := by
  simp only [calculateRegressionChannel]
  rw [if_neg (by omega)]
  have hx1 : ((List.range prices.length).map (fun (i : ℕ) => (i : ℝ))).length = prices.length := by
    simp
  have hx2 : ((List.range prices.length).map (fun (i : ℕ) => (i : ℝ))) ≠ [] :=
    List.ne_nil_of_length_pos (by rw [hx1]; omega)
  obtain ⟨r, hr, hrlen⟩ :=
    calculateLinearRegression_ok ((List.range prices.length).map (fun (i : ℕ) => (i : ℝ))) prices
      hx1 hx2
  rw [hr]
  obtain ⟨v, hv⟩ := calculateStandardDeviation_ok prices r.predictions
    (by rw [hrlen, hx1]) (List.ne_nil_of_length_pos (by omega))
  simp only [Except.bind]
  rw [hv]
  exact ⟨_, rfl⟩

/-- C4: `calculateRegressionChannel` fails with the insufficient-data error
exactly when fewer than two prices are supplied, and
`calculateLinearRegression` fails with the invalid-input error exactly when
its inputs have different lengths or are empty; in all other cases both
succeed. -/
theorem errorConditions (prices xValues yValues : List ℝ) (stdDevMultiplier : ℝ) :
    (calculateRegressionChannel prices stdDevMultiplier =
        Except.error "Need at least 2 price points for regression analysis" ↔
      prices.length < 2) ∧
    ((calculateRegressionChannel prices stdDevMultiplier).isOk = true ↔
      2 ≤ prices.length) ∧
    (calculateLinearRegression xValues yValues =
        Except.error "Invalid input: arrays must have same non-zero length" ↔
      (xValues.length ≠ yValues.length ∨ xValues = [])) ∧
    ((calculateLinearRegression xValues yValues).isOk = true ↔
      (xValues.length = yValues.length ∧ xValues ≠ [])) := by
  have hCRC : ∀ h : prices.length < 2,
      calculateRegressionChannel prices stdDevMultiplier =
        Except.error "Need at least 2 price points for regression analysis" := by
    intro h
    simp only [calculateRegressionChannel]
    rw [if_pos h]
  constructor
  · constructor
    · intro h
      by_contra hc
      push_neg at hc
      obtain ⟨r, hr⟩ := calculateRegressionChannel_ok prices stdDevMultiplier hc
      rw [hr] at h
      cases h
    · exact hCRC
  constructor
  · constructor
    · intro h
      by_contra hc
      push_neg at hc
      rw [hCRC hc] at h
      cases h
    · intro h
      obtain ⟨r, hr⟩ := calculateRegressionChannel_ok prices stdDevMultiplier h
      rw [hr]
      rfl
  constructor
  · by_cases hc : xValues.length = 0 ∨ xValues.length ≠ yValues.length
    · constructor
      · intro _
        rcases hc with hc | hc
        · exact Or.inr (List.length_eq_zero.mp hc)
        · exact Or.inl hc
      · intro _
        simp only [calculateLinearRegression]
        rw [if_pos hc]
    · constructor
      · intro h
        simp only [calculateLinearRegression] at h
        rw [if_neg hc] at h
        cases h
      · intro h
        exfalso
        push_neg at hc
        rcases h with h | h
        · exact h hc.2
        · exact hc.1 (by simp [h])
  · by_cases hc : xValues.length = 0 ∨ xValues.length ≠ yValues.length
    · constructor
      · intro h
        simp only [calculateLinearRegression] at h
        rw [if_pos hc] at h
        cases h
      · rintro ⟨h1, h2⟩
        exfalso
        rcases hc with hc | hc
        · exact h2 (List.length_eq_zero.mp hc)
        · exact hc h1
    · constructor
      · intro _
        push_neg at hc
        exact ⟨hc.2, fun hnil => hc.1 (by simp [hnil])⟩
      · intro _
        simp only [calculateLinearRegression]
        rw [if_neg hc]
        rfl

/-- A list is the range-indexed map of its own `getD` lookups. -/
lemma self_eq_range_map_getD {α : Type} (d : α) (y : List α) :
    (List.range y.length).map (fun i => y.getD i d) = y := by
  induction y with
  | nil => rfl
  | cons a t ih =>
      rw [List.length_cons, List.range_succ_eq_map, List.map_cons, List.map_map]
      simp only [Function.comp_def, Nat.succ_eq_add_one, List.getD_cons_zero,
        List.getD_cons_succ]
      rw [ih]

/-- Sum of a mapped index range as a `Finset` sum. -/
lemma sum_map_range {K : Type} [AddCommMonoid K] (f : ℕ → K) (n : ℕ) :
    ((List.range n).map f).sum = ∑ i in Finset.range n, f i := by
  induction n with
  | zero => simp
  | succ m ih =>
      rw [List.range_succ, List.map_append, List.sum_append, Finset.sum_range_succ, ih]
      simp

/-- Sum of a list as a `Finset` sum of its `getD` lookups. -/
lemma sum_list_getD {K : Type} [AddCommMonoid K] (y : List K) :
    y.sum = ∑ i in Finset.range y.length, y.getD i 0 := by
  conv_lhs => rw [← self_eq_range_map_getD 0 y]
  rw [sum_map_range]

/-- Sum of a mapped list as a `Finset` sum of its `getD` lookups. -/
lemma sum_map_list_getD {K : Type} [AddCommMonoid K] (g : K → K) (y : List K) :
    (y.map g).sum = ∑ i in Finset.range y.length, g (y.getD i 0) := by
  conv_lhs => rw [← self_eq_range_map_getD 0 y]
  rw [List.map_map, sum_map_range]
  rfl

/-- `zipWith` of an index map against a list, as a single map over the
index range. -/
lemma zipWith_range_map {K : Type} (g : K → K → K) (f : ℕ → K) (d : K) (y : List K) :
    List.zipWith g ((List.range y.length).map f) y =
      (List.range y.length).map (fun i => g (f i) (y.getD i d)) := by
  induction y generalizing f with
  | nil => rfl
  | cons a t ih =>
      rw [List.length_cons, List.range_succ_eq_map, List.map_cons, List.map_cons,
        List.zipWith_cons_cons, List.map_map, List.map_map]
      simp only [Function.comp_def, Nat.succ_eq_add_one, List.getD_cons_zero,
        List.getD_cons_succ]
      rw [ih]

/-- `zipWith` of a list against an index map, as a single map over the
index range. -/
lemma zipWith_map_range {K : Type} (g : K → K → K) (f : ℕ → K) (d : K) (y : List K) :
    List.zipWith g y ((List.range y.length).map f) =
      (List.range y.length).map (fun i => g (y.getD i d) (f i)) := by
  induction y generalizing f with
  | nil => rfl
  | cons a t ih =>
      rw [List.length_cons, List.range_succ_eq_map, List.map_cons, List.map_cons,
        List.zipWith_cons_cons, List.map_map, List.map_map]
      simp only [Function.comp_def, Nat.succ_eq_add_one, List.getD_cons_zero,
        List.getD_cons_succ]
      rw [ih]

/-- In-bounds `getD` lookup of a mapped index range. -/
lemma getD_range_map {K : Type} (f : ℕ → K) (n i : ℕ) (h : i < n) (d : K) :
    ((List.range n).map f).getD i d = f i := by
  rw [List.getD_eq_getElem _ _ (by simpa using h)]
  simp

/-- C5: on the index x-axis `0..n-1` with any y of length n ≥ 1, the fit
returns predictions of length n with `predictions[i] = slope·i + intercept`,
where slope and intercept are given by the closed-form least-squares sums. -/
theorem calculateLinearRegression_fit_spec {K : Type} [LinearOrderedField K]
    (y : List K) (n : ℕ) (hn : 1 ≤ n) (hy : y.length = n) (r : RegressionResult K)
    (hr : calculateLinearRegression ((List.range n).map (fun (i : ℕ) => (i : K))) y =
      Except.ok r) :
    r.predictions.length = n ∧
    (∀ i, i < n → r.predictions.getD i 0 = r.slope * (i : K) + r.intercept) ∧
    r.slope =
      ((n : K) * (∑ i in Finset.range n, (i : K) * y.getD i 0) -
          (∑ i in Finset.range n, (i : K)) * (∑ i in Finset.range n, y.getD i 0)) /
        ((n : K) * (∑ i in Finset.range n, (i : K) * (i : K)) -
          (∑ i in Finset.range n, (i : K)) ^ 2) ∧
    r.intercept =
      ((∑ i in Finset.range n, y.getD i 0) - r.slope * (∑ i in Finset.range n, (i : K))) /
        (n : K) := by
  subst hy
  simp only [calculateLinearRegression] at hr
  rw [if_neg] at hr
  · injection hr with hr
    subst hr
    refine ⟨by simp, ?_, ?_, ?_⟩
    · intro i hi
      dsimp only
      rw [List.map_map, getD_range_map _ _ _ hi]
      rfl
    · dsimp only
      rw [zipWith_range_map (fun a b => a * b) (fun (i : ℕ) => (i : K)) 0 y, List.map_map]
      simp only [List.length_map, List.length_range, Function.comp_def]
      rw [sum_map_range, sum_map_range, sum_map_range, sum_list_getD y, pow_two]
    · dsimp only
      rw [zipWith_range_map (fun a b => a * b) (fun (i : ℕ) => (i : K)) 0 y, List.map_map]
      simp only [List.length_map, List.length_range, Function.comp_def]
      rw [sum_map_range, sum_map_range, sum_map_range, sum_list_getD y]
  · push_neg
    constructor
    · simp only [List.length_map, List.length_range]
      omega
    · simp

/-- Witness for C5: the theorem applied to y = [1, 3] over x = [0, 1]
(slope 2, intercept 1, predictions [1, 3]). -/
theorem calculateLinearRegression_fit_spec_witness :
    calculateLinearRegression ((List.range 2).map (fun (i : ℕ) => (i : ℚ))) [1, 3] =
      Except.ok ⟨2, 1, 1, [1, 3]⟩ ∧
    (⟨2, 1, 1, [1, 3]⟩ : RegressionResult ℚ).predictions.length = 2 ∧
    (⟨2, 1, 1, [1, 3]⟩ : RegressionResult ℚ).predictions.getD 1 0 =
      (⟨2, 1, 1, [1, 3]⟩ : RegressionResult ℚ).slope * ((1 : ℕ) : ℚ) +
        (⟨2, 1, 1, [1, 3]⟩ : RegressionResult ℚ).intercept := by
  have heval : calculateLinearRegression ((List.range 2).map (fun (i : ℕ) => (i : ℚ))) [1, 3] =
      Except.ok ⟨2, 1, 1, [1, 3]⟩ := by
    norm_num [calculateLinearRegression, List.range_succ]
  have h := calculateLinearRegression_fit_spec [(1 : ℚ), 3] 2 (by norm_num) rfl _ heval
  exact ⟨heval, h.1, h.2.1 1 (by norm_num)⟩

/-- Distances to the two band edges, normalized by the same non-zero
channel width, sum to the full 100 percent. -/
lemma distances_aux (u l c : ℝ) (h : u - l ≠ 0) :
    (u - c) / (u - l) * 100 + (c - l) / (u - l) * 100 = 100 := by
  field_simp
  ring

/-- C9: whenever the orchestrator succeeds and the channel width at the
latest index is non-zero, the two normalized band distances sum to 100. -/
theorem distances_sum_to_hundred (prices : List ℝ) (stdDevMultiplier : ℝ)
    (r : RegressionChannelResult ℝ)
    (hr : calculateRegressionChannel prices stdDevMultiplier = Except.ok r)
    (hw : r.channelWidth ≠ 0) :
    r.distanceFromUpper + r.distanceFromLower = 100 := by
  simp only [calculateRegressionChannel] at hr
  by_cases hp : prices.length < 2
  · rw [if_pos hp] at hr
    cases hr
  · rw [if_neg hp] at hr
    cases hreg : calculateLinearRegression
        ((List.range prices.length).map (fun (i : ℕ) => (i : ℝ))) prices with
    | error e => rw [hreg] at hr; cases hr
    | ok reg =>
        rw [hreg] at hr
        simp only [Except.bind] at hr
        cases hsd : calculateStandardDeviation prices reg.predictions with
        | error e => rw [hsd] at hr; cases hr
        | ok sd =>
            rw [hsd] at hr
            simp only at hr
            injection hr with hr
            subst hr
            simp only at hw ⊢
            exact distances_aux _ _ _ hw


/-- Witness for C9: the theorem applied to prices [1, −1, −1, 1] with
multiplier 2 (flat fit at 0, stdDev 1, width 4, distances 25 and 75). -/
theorem distances_sum_to_hundred_witness :
    calculateRegressionChannel [(1 : ℝ), -1, -1, 1] 2 =
      Except.ok ⟨⟨0, 0, 0, [0, 0, 0, 0]⟩, [2, 2, 2, 2], [-2, -2, -2, -2],
        [0, 0, 0, 0], 1, 1, 0, Signal.HOLD, 50, 25, 75, 4⟩ ∧
    (⟨⟨0, 0, 0, [0, 0, 0, 0]⟩, [2, 2, 2, 2], [-2, -2, -2, -2],
        [0, 0, 0, 0], 1, 1, 0, Signal.HOLD, 50, 25, 75, 4⟩ :
          RegressionChannelResult ℝ).distanceFromUpper +
      (⟨⟨0, 0, 0, [0, 0, 0, 0]⟩, [2, 2, 2, 2], [-2, -2, -2, -2],
        [0, 0, 0, 0], 1, 1, 0, Signal.HOLD, 50, 25, 75, 4⟩ :
          RegressionChannelResult ℝ).distanceFromLower = 100 := by
  have heval : calculateRegressionChannel [(1 : ℝ), -1, -1, 1] 2 =
      Except.ok ⟨⟨0, 0, 0, [0, 0, 0, 0]⟩, [2, 2, 2, 2], [-2, -2, -2, -2],
        [0, 0, 0, 0], 1, 1, 0, Signal.HOLD, 50, 25, 75, 4⟩ := by
    norm_num [calculateRegressionChannel, calculateLinearRegression,
      calculateStandardDeviation, calculateChannelBands, generateSignal,
      List.range_succ, min_def, abs_of_nonneg, abs_of_nonpos, Except.bind,
      Real.sqrt_one]
  exact ⟨heval,
    distances_sum_to_hundred [(1 : ℝ), -1, -1, 1] 2 _ heval (by norm_num)⟩

/-- C2: the full evaluation of the orchestrator on the flat series
[10, 10, 10, 10, 10] with multiplier 2 (the source default) under the
embedding's total-field semantics, where the division `0 / 0` occurring in
`generateSignal` (the channel width is 0 here) is 0: slope 0, intercept 10,
R² 0, stdDev 0, bands collapsed to 10, signal HOLD with strength 100.  In
IEEE/JavaScript arithmetic the same `0 / 0` is NaN, which then makes the
returned `signalStrength` NaN rather than 100 - see the accompanying
analysis of this degenerate case. -/
theorem calculateRegressionChannel_flat_example :
    calculateRegressionChannel [(10 : ℝ), 10, 10, 10, 10] 2 =
      Except.ok ⟨⟨0, 10, 0, [10, 10, 10, 10, 10]⟩, [10, 10, 10, 10, 10],
        [10, 10, 10, 10, 10], [10, 10, 10, 10, 10], 0, 10, 10,
        Signal.HOLD, 100, 0, 0, 0⟩ := by
  norm_num [calculateRegressionChannel, calculateLinearRegression,
    calculateStandardDeviation, calculateChannelBands, generateSignal,
    List.range_succ, min_def, abs_of_nonneg, abs_of_nonpos, Except.bind]

/-- Counterexample for C8: at slope 0 and intercept 0 the code yields
"y = +0.0000x + 0.00" (a space between the intercept's sign and digits),
not the claimed "y = +0.0000x +0.00". -/
theorem formatRegressionEquation_claim_false :
    formatRegressionEquation 0 0 = "y = +0.0000x + 0.00" ∧
    formatRegressionEquationClaimed 0 0 = "y = +0.0000x +0.00" ∧
    formatRegressionEquation 0 0 ≠ formatRegressionEquationClaimed 0 0 := by
  refine ⟨?_, ?_, ?_⟩
  · norm_num [formatRegressionEquation, jsToFixed]
    rfl
  · norm_num [formatRegressionEquationClaimed, jsToFixed]
    rfl
  · norm_num [formatRegressionEquation, formatRegressionEquationClaimed, jsToFixed]
    decide

/-- C8 (amended): `formatRegressionEquation` renders exactly the amended
format, and a negative coefficient is rendered as '-' followed by the
rendering of its absolute value (so the minus sign still immediately
precedes the digits). -/
theorem formatRegressionEquation_amended_spec (slope intercept : ℚ) :
    formatRegressionEquation slope intercept =
      formatRegressionEquationAmended slope intercept ∧
    (slope < 0 → jsToFixed 4 slope = "-" ++ jsToFixed 4 (-slope)) ∧
    (intercept < 0 → jsToFixed 2 intercept = "-" ++ jsToFixed 2 (-intercept)) := by
  refine ⟨rfl, ?_, ?_⟩
  · intro h
    simp only [jsToFixed, abs_neg, if_pos h, if_neg (by linarith : ¬(-slope < 0))]
  · intro h
    simp only [jsToFixed, abs_neg, if_pos h, if_neg (by linarith : ¬(-intercept < 0))]

/-- Witness for the amended C8: the theorem applied at slope −1 and
intercept −1, whose rendering is "y = -1.0000x  -1.00". -/
theorem formatRegressionEquation_amended_spec_witness :
    formatRegressionEquation (-1) (-1) = formatRegressionEquationAmended (-1) (-1) ∧
    jsToFixed 4 (-1 : ℚ) = "-" ++ jsToFixed 4 (-(-1 : ℚ)) := by
  have h := formatRegressionEquation_amended_spec (-1) (-1)
  exact ⟨h.1, h.2.1 (by norm_num)⟩

/-- Twice the sum of the first n indices, cast into K. -/
lemma two_mul_sum_range_cast {K : Type} [LinearOrderedField K] (n : ℕ) :
    (2 : K) * ∑ i in Finset.range n, (i : K) = (n : K) * ((n : K) - 1) := by
  induction n with
  | zero => simp
  | succ m ih =>
      rw [Finset.sum_range_succ]
      push_cast
      push_cast at ih
      linear_combination ih

/-- Six times the sum of the squares of the first n indices, cast into K. -/
lemma six_mul_sum_range_sq_cast {K : Type} [LinearOrderedField K] (n : ℕ) :
    (6 : K) * ∑ i in Finset.range n, (i : K) * (i : K) =
      (n : K) * ((n : K) - 1) * (2 * (n : K) - 1) := by
  induction n with
  | zero => simp
  | succ m ih =>
      rw [Finset.sum_range_succ]
      push_cast
      push_cast at ih
      linear_combination ih

/-- Closed form of the least-squares denominator over the index axis. -/
lemma twelve_mul_denom {K : Type} [LinearOrderedField K] (n : ℕ) :
    (12 : K) * ((n : K) * (∑ i in Finset.range n, (i : K) * (i : K)) -
        (∑ i in Finset.range n, (i : K)) * (∑ i in Finset.range n, (i : K))) =
      (n : K) ^ 2 * ((n : K) - 1) * ((n : K) + 1) := by
  have h6 := six_mul_sum_range_sq_cast (K := K) n
  have h2 := two_mul_sum_range_cast (K := K) n
  linear_combination (2 * (n : K)) * h6 -
    (3 * (2 * (∑ i in Finset.range n, (i : K)) + (n : K) * ((n : K) - 1))) * h2

/-- For n ≥ 2 the least-squares denominator over the index axis is
positive. -/
lemma denom_pos {K : Type} [LinearOrderedField K] (n : ℕ) (hn : 2 ≤ n) :
    0 < (n : K) * (∑ i in Finset.range n, (i : K) * (i : K)) -
        (∑ i in Finset.range n, (i : K)) * (∑ i in Finset.range n, (i : K)) := by
  have hc : (2 : K) ≤ (n : K) := by exact_mod_cast hn
  have h12 := twelve_mul_denom (K := K) n
  nlinarith [h12, hc, sq_nonneg ((n : K) - 2)]

/-- The closed-form least-squares slope and intercept over the index axis
satisfy the two normal equations: the residuals sum to zero and are
orthogonal to the index. -/
lemma normal_equations {K : Type} [LinearOrderedField K] (n : ℕ) (hn : 2 ≤ n)
    (yf : ℕ → K) (slope intercept : K)
    (hslope : slope =
      ((n : K) * (∑ i in Finset.range n, (i : K) * yf i) -
          (∑ i in Finset.range n, (i : K)) * (∑ i in Finset.range n, yf i)) /
        ((n : K) * (∑ i in Finset.range n, (i : K) * (i : K)) -
          (∑ i in Finset.range n, (i : K)) * (∑ i in Finset.range n, (i : K))))
    (hintercept : intercept =
      ((∑ i in Finset.range n, yf i) - slope * (∑ i in Finset.range n, (i : K))) /
        (n : K)) :
    (∑ i in Finset.range n, (yf i - (slope * (i : K) + intercept))) = 0 ∧
    (∑ i in Finset.range n, (yf i - (slope * (i : K) + intercept)) * (i : K)) = 0 := by
  have hn0 : (n : K) ≠ 0 := by
    have hpos : 0 < n := by omega
    have : (0 : K) < (n : K) := by exact_mod_cast hpos
    exact this.ne'
  have hD : ((n : K) * (∑ i in Finset.range n, (i : K) * (i : K)) -
      (∑ i in Finset.range n, (i : K)) * (∑ i in Finset.range n, (i : K))) ≠ 0 :=
    (denom_pos n hn).ne'
  have hsd : slope * ((n : K) * (∑ i in Finset.range n, (i : K) * (i : K)) -
      (∑ i in Finset.range n, (i : K)) * (∑ i in Finset.range n, (i : K))) =
      (n : K) * (∑ i in Finset.range n, (i : K) * yf i) -
        (∑ i in Finset.range n, (i : K)) * (∑ i in Finset.range n, yf i) := by
    rw [hslope, div_mul_cancel₀ _ hD]
  have hin : intercept * (n : K) =
      (∑ i in Finset.range n, yf i) - slope * (∑ i in Finset.range n, (i : K)) := by
    rw [hintercept, div_mul_cancel₀ _ hn0]
  have e1 : (∑ i in Finset.range n, (yf i - (slope * (i : K) + intercept))) =
      (∑ i in Finset.range n, yf i) - slope * (∑ i in Finset.range n, (i : K)) -
        (n : K) * intercept := by
    rw [Finset.sum_sub_distrib, Finset.sum_add_distrib, ← Finset.mul_sum,
      Finset.sum_const, Finset.card_range, nsmul_eq_mul]
    ring
  have h1 : (∑ i in Finset.range n, (yf i - (slope * (i : K) + intercept))) = 0 := by
    rw [e1]
    linear_combination -hin
  refine ⟨h1, ?_⟩
  have e2 : (∑ i in Finset.range n, (yf i - (slope * (i : K) + intercept)) * (i : K)) =
      (∑ i in Finset.range n, (i : K) * yf i) -
        slope * (∑ i in Finset.range n, (i : K) * (i : K)) -
        intercept * (∑ i in Finset.range n, (i : K)) := by
    have expand : ∀ i ∈ Finset.range n,
        (yf i - (slope * (i : K) + intercept)) * (i : K) =
          (i : K) * yf i - slope * ((i : K) * (i : K)) - intercept * (i : K) := by
      intro i _
      ring
    rw [Finset.sum_congr rfl expand, Finset.sum_sub_distrib, Finset.sum_sub_distrib,
      ← Finset.mul_sum, ← Finset.mul_sum]
  have key : (n : K) * (∑ i in Finset.range n, (yf i - (slope * (i : K) + intercept)) * (i : K)) = 0 := by
    rw [e2]
    linear_combination (-1 : K) * hsd - (∑ i in Finset.range n, (i : K)) * hin
  rcases mul_eq_zero.mp key with h | h
  · exact absurd h hn0
  · exact h

/-- Given the two normal equations, the total sum of squares splits into
the residual sum of squares plus the regression sum of squares (the cross
term vanishes). -/
lemma sstot_decomposition {K : Type} [LinearOrderedField K] (n : ℕ) (yf : ℕ → K)
    (slope intercept meanY : K)
    (hE1 : (∑ i in Finset.range n, (yf i - (slope * (i : K) + intercept))) = 0)
    (hE2 : (∑ i in Finset.range n, (yf i - (slope * (i : K) + intercept)) * (i : K)) = 0) :
    (∑ i in Finset.range n, (yf i - meanY) ^ 2) =
      (∑ i in Finset.range n, (yf i - (slope * (i : K) + intercept)) ^ 2) +
        (∑ i in Finset.range n, ((slope * (i : K) + intercept) - meanY) ^ 2) := by
  have expand : ∀ i ∈ Finset.range n,
      (yf i - meanY) ^ 2 =
        (yf i - (slope * (i : K) + intercept)) ^ 2 +
          ((slope * (i : K) + intercept) - meanY) ^ 2 +
          (2 * slope * ((yf i - (slope * (i : K) + intercept)) * (i : K)) +
            (2 * (intercept - meanY)) * (yf i - (slope * (i : K) + intercept))) := by
    intro i _
    ring
  rw [Finset.sum_congr rfl expand, Finset.sum_add_distrib, Finset.sum_add_distrib,
    Finset.sum_add_distrib, ← Finset.mul_sum, ← Finset.mul_sum, hE1, hE2]
  ring

/-- Core bounds for the coefficient of determination as computed by the
source over the index axis: with the closed-form slope and intercept and
the `SStot = 0 → 0` policy branch, R² always lies in [0, 1], and a constant
series yields R² = 0. -/
lemma rSquared_bounds_aux {K : Type} [LinearOrderedField K] (n : ℕ) (hn : 2 ≤ n)
    (yf : ℕ → K) (slope intercept rsq : K)
    (hslope : slope =
      ((n : K) * (∑ i in Finset.range n, (i : K) * yf i) -
          (∑ i in Finset.range n, (i : K)) * (∑ i in Finset.range n, yf i)) /
        ((n : K) * (∑ i in Finset.range n, (i : K) * (i : K)) -
          (∑ i in Finset.range n, (i : K)) * (∑ i in Finset.range n, (i : K))))
    (hintercept : intercept =
      ((∑ i in Finset.range n, yf i) - slope * (∑ i in Finset.range n, (i : K))) /
        (n : K))
    (hrsq : rsq =
      if (∑ i in Finset.range n,
          (yf i - (∑ j in Finset.range n, yf j) / (n : K)) ^ 2) = 0 then 0
      else 1 -
        (∑ i in Finset.range n, (yf i - (slope * (i : K) + intercept)) ^ 2) /
          (∑ i in Finset.range n,
            (yf i - (∑ j in Finset.range n, yf j) / (n : K)) ^ 2)) :
    0 ≤ rsq ∧ rsq ≤ 1 ∧ ((∀ i, i < n → yf i = yf 0) → rsq = 0) := by
  have hn0 : (n : K) ≠ 0 := by
    have hpos : 0 < n := by omega
    have : (0 : K) < (n : K) := by exact_mod_cast hpos
    exact this.ne'
  have hNE := normal_equations n hn yf slope intercept hslope hintercept
  have hdec := sstot_decomposition n yf slope intercept
    ((∑ j in Finset.range n, yf j) / (n : K)) hNE.1 hNE.2
  have hT0 : 0 ≤ ∑ i in Finset.range n,
      (yf i - (∑ j in Finset.range n, yf j) / (n : K)) ^ 2 :=
    Finset.sum_nonneg (fun i _ => sq_nonneg _)
  have hR0 : 0 ≤ ∑ i in Finset.range n,
      (yf i - (slope * (i : K) + intercept)) ^ 2 :=
    Finset.sum_nonneg (fun i _ => sq_nonneg _)
  have hG0 : 0 ≤ ∑ i in Finset.range n,
      ((slope * (i : K) + intercept) - (∑ j in Finset.range n, yf j) / (n : K)) ^ 2 :=
    Finset.sum_nonneg (fun i _ => sq_nonneg _)
  have hRT : (∑ i in Finset.range n, (yf i - (slope * (i : K) + intercept)) ^ 2) ≤
      ∑ i in Finset.range n,
        (yf i - (∑ j in Finset.range n, yf j) / (n : K)) ^ 2 := by
    rw [hdec]
    linarith
  have hconst : (∀ i, i < n → yf i = yf 0) →
      (∑ i in Finset.range n,
        (yf i - (∑ j in Finset.range n, yf j) / (n : K)) ^ 2) = 0 := by
    intro h
    have hSY : (∑ j in Finset.range n, yf j) = (n : K) * yf 0 := by
      rw [Finset.sum_congr rfl (fun i hi => h i (Finset.mem_range.mp hi)),
        Finset.sum_const, Finset.card_range, nsmul_eq_mul]
    have hmean : (∑ j in Finset.range n, yf j) / (n : K) = yf 0 := by
      rw [hSY, mul_div_cancel_left₀ _ hn0]
    rw [hmean]
    apply Finset.sum_eq_zero
    intro i hi
    rw [h i (Finset.mem_range.mp hi), sub_self]
    simp
  by_cases hT : (∑ i in Finset.range n,
      (yf i - (∑ j in Finset.range n, yf j) / (n : K)) ^ 2) = 0
  · rw [hrsq, if_pos hT]
    exact ⟨le_refl 0, zero_le_one, fun _ => rfl⟩
  · rw [hrsq, if_neg hT]
    have hTpos : 0 < ∑ i in Finset.range n,
        (yf i - (∑ j in Finset.range n, yf j) / (n : K)) ^ 2 :=
      lt_of_le_of_ne hT0 (Ne.symm hT)
    refine ⟨?_, ?_, ?_⟩
    · have : (∑ i in Finset.range n, (yf i - (slope * (i : K) + intercept)) ^ 2) /
          (∑ i in Finset.range n,
            (yf i - (∑ j in Finset.range n, yf j) / (n : K)) ^ 2) ≤ 1 :=
        (div_le_one hTpos).mpr hRT
      linarith
    · have : 0 ≤ (∑ i in Finset.range n, (yf i - (slope * (i : K) + intercept)) ^ 2) /
          (∑ i in Finset.range n,
            (yf i - (∑ j in Finset.range n, yf j) / (n : K)) ^ 2) :=
        div_nonneg hR0 hT0
      linarith
    · intro h
      exact absurd (hconst h) hT

/-- C3 (amended): over the index axis `0..n-1` with n ≥ 2, the computed
rSquared always lies in [0, 1], and equals 0 whenever all y values are
equal (the converse direction of the original claim fails; see the
counterexample). -/
theorem calculateLinearRegression_rSquared_spec {K : Type} [LinearOrderedField K]
    (y : List K) (n : ℕ) (hn : 2 ≤ n) (hy : y.length = n) (r : RegressionResult K)
    (hr : calculateLinearRegression ((List.range n).map (fun (i : ℕ) => (i : K))) y =
      Except.ok r) :
    0 ≤ r.rSquared ∧ r.rSquared ≤ 1 ∧
      ((∀ a ∈ y, ∀ b ∈ y, a = b) → r.rSquared = 0) := by
  subst hy
  simp only [calculateLinearRegression] at hr
  rw [if_neg] at hr
  swap
  · push_neg
    refine ⟨?_, by simp⟩
    simp only [List.length_map, List.length_range]
    omega
  injection hr with hr
  subst hr
  dsimp only
  simp only [List.length_map, List.length_range, List.map_map]
  rw [zipWith_range_map (fun a b => a * b) (fun (i : ℕ) => (i : K)) 0 y]
  rw [zipWith_map_range (fun a b => (a - b) ^ 2) _ 0 y]
  simp only [sum_map_range]
  rw [sum_map_list_getD, sum_list_getD y]
  have hmem : ∀ i, i < y.length → y.getD i 0 ∈ y := by
    intro i hi
    rw [List.getD_eq_getElem _ _ hi]
    exact List.getElem_mem _
  have haux := rSquared_bounds_aux y.length hn (fun i => y.getD i 0) _ _ _ rfl rfl rfl
  exact ⟨haux.1, haux.2.1,
    fun hall => haux.2.2 (fun i hi => hall _ (hmem i hi) _ (hmem 0 (by omega)))⟩

/-- Counterexample for C3 as originally stated: y = [1, 0, 1] over x =
[0, 1, 2] is not constant, yet the computed rSquared is 0 (the fitted slope
is 0, so the residual and total sums of squares coincide). -/
theorem calculateLinearRegression_rSquared_zero_nonconstant :
    calculateLinearRegression ((List.range 3).map (fun (i : ℕ) => (i : ℚ))) [1, 0, 1] =
      Except.ok ⟨0, 2 / 3, 0, [2 / 3, 2 / 3, 2 / 3]⟩ ∧
    ¬(∀ a ∈ [(1 : ℚ), 0, 1], ∀ b ∈ [(1 : ℚ), 0, 1], a = b) := by
  constructor
  · norm_num [calculateLinearRegression, List.range_succ]
  · intro h
    have h10 := h 1 (by simp) 0 (by simp)
    norm_num at h10

/-- Witness for the amended C3: the theorem applied to the constant series
[5, 5] over x = [0, 1], whose rSquared is 0. -/
theorem calculateLinearRegression_rSquared_spec_witness :
    calculateLinearRegression ((List.range 2).map (fun (i : ℕ) => (i : ℚ))) [5, 5] =
      Except.ok ⟨0, 5, 0, [5, 5]⟩ ∧
    0 ≤ (⟨0, 5, 0, [5, 5]⟩ : RegressionResult ℚ).rSquared ∧
    (⟨0, 5, 0, [5, 5]⟩ : RegressionResult ℚ).rSquared ≤ 1 ∧
    (⟨0, 5, 0, [5, 5]⟩ : RegressionResult ℚ).rSquared = 0 := by
  have heval : calculateLinearRegression
      ((List.range 2).map (fun (i : ℕ) => (i : ℚ))) [5, 5] =
        Except.ok ⟨0, 5, 0, [5, 5]⟩ := by
    norm_num [calculateLinearRegression, List.range_succ]
  have h := calculateLinearRegression_rSquared_spec [(5 : ℚ), 5] 2 (by norm_num) rfl _ heval
  refine ⟨heval, h.1, h.2.1, h.2.2 ?_⟩
  intro a ha b hb
  simp at ha hb
  rw [ha, hb]
